import Mathlib

/-!
Verification development for the alithia paper-acquisition and reranking
subsystems.  The fetcher, web scraper, query builder and reranker are
embedded shallowly: network calls, the arXiv client and the sentence
encoder are abstracted as oracles, while the control flow (strategy
cascade, retry loop, pagination loop, date filtering, neutral-score
fallbacks, query-string construction, time-decay weighting) is modelled
faithfully and verified below.
-/

namespace Alithia

/-- Modelled from the spec: the `ArxivPaper` data container
(`alithia.models`, absent from the sources; only its tests and callers
are present).  Published timestamps are modelled as integers, the
optional relevance score as a rational. -/
structure ArxivPaper where
  title : String
  summary : String
  authors : List String
  arxiv_id : String
  pdf_url : String
  published_date : Option Int := none
  score : Option ℚ := none
deriving DecidableEq

/-- Modelled from the spec: the three acquisition strategies of
`alithia.utils.paper_fetcher.FetchStrategy` (absent from the sources). -/
inductive FetchStrategy where
  | api_search
  | rss_feed
  | web_scraper
deriving DecidableEq

/-- Modelled from the spec: the `FetchResult` envelope of
`alithia.utils.paper_fetcher` (absent from the sources).  Field defaults
follow `test_fetch_result_initialization`; wall-clock elapsed time is a
rational placeholder. -/
structure FetchResult where
  papers : List ArxivPaper := []
  strategy_used : Option FetchStrategy := none
  success : Bool := false
  error_message : Option String := none
  retry_count : Nat := 0
  elapsed_time : ℚ := 0
deriving DecidableEq

/-- The default-constructed `FetchResult()`. -/
def defaultFetchResult : FetchResult := {}

/-- Oracle standing for the three strategy implementations
(`_fetch_with_api_search`, `_fetch_with_rss_feed`,
`_fetch_with_web_scraper`): each call's outcome is a fixed envelope,
exactly as the unit tests mock them. -/
structure StrategyOracle where
  api : FetchResult
  rss : FetchResult
  web : FetchResult

/-- Outcome the oracle assigns to one strategy. -/
def StrategyOracle.result (o : StrategyOracle) : FetchStrategy → FetchResult
  | .api_search => o.api
  | .rss_feed => o.rss
  | .web_scraper => o.web

/-- The fixed envelope returned when every attempted strategy fails. -/
def allFailedResult : FetchResult :=
  { papers := [], strategy_used := none, success := false,
    error_message := some "All fetch strategies failed" }

/-- Modelled from the spec: the strategies `fetch_papers` is willing to
attempt, in its fixed priority order — primary search only when both
`from_time` and `to_time` are given, then the feed, then the web scraper
only when web fallback is enabled. -/
def eligibleStrategies (hasFromTime hasToTime enableWebFallback : Bool) :
    List FetchStrategy :=
  (if hasFromTime && hasToTime then [.api_search] else []) ++
    [.rss_feed] ++ (if enableWebFallback then [.web_scraper] else [])

/-- Modelled from the spec: the sequential strategy cascade inside
`fetch_papers` — try each eligible strategy once, stop at the first one
whose result reports success, and fall through to the fixed failure
envelope otherwise.  Also records the trace of strategies attempted. -/
def runCascade (o : StrategyOracle) :
    List FetchStrategy → FetchResult × List FetchStrategy
  | [] => (allFailedResult, [])
  | s :: rest =>
    let r := o.result s
    if r.success then (r, [s])
    else
      let p := runCascade o rest
      (p.1, s :: p.2)

/-- Modelled from the spec: `EnhancedPaperFetcher.fetch_papers` (absent
from the sources), returning the produced `FetchResult` together with
the list of strategies it invoked.  The Python method is total — every
strategy-internal exception is converted into a failed envelope — so it
is embedded as a total function. -/
def fetchPapersTrace (o : StrategyOracle)
    (hasFromTime hasToTime enableWebFallback : Bool) :
    FetchResult × List FetchStrategy :=
  runCascade o (eligibleStrategies hasFromTime hasToTime enableWebFallback)

theorem runCascade_trace_sublist (o : StrategyOracle) (l : List FetchStrategy) :
    (runCascade o l).2.Sublist l := by
  induction l with
  | nil => simp [runCascade]
  | cons s rest ih =>
    by_cases h : (o.result s).success
    · simp [runCascade, h]
    · simpa [runCascade, h] using ih.cons₂ s

theorem runCascade_dropLast_failed (o : StrategyOracle)
    (l : List FetchStrategy) :
    ∀ s ∈ (runCascade o l).2.dropLast, (o.result s).success = false := by
  induction l with
  | nil => simp [runCascade]
  | cons s rest ih =>
    cases hs : (o.result s).success with
    | true => simp [runCascade, hs]
    | false =>
      intro t ht
      rcases htr : (runCascade o rest).2 with _ | ⟨u, us⟩
      · simp [runCascade, hs, htr] at ht
      · simp only [runCascade, hs, Bool.false_eq_true, if_false, htr,
          List.dropLast_cons₂, List.mem_cons] at ht
        rcases ht with rfl | hmem
        · exact hs
        · exact ih t (by rw [htr]; exact hmem)

theorem runCascade_success (o : StrategyOracle) (l : List FetchStrategy)
    (h : (runCascade o l).1.success = true) :
    ∃ s, (runCascade o l).2.getLast? = some s ∧
      (o.result s).success = true ∧ (runCascade o l).1 = o.result s := by
  induction l with
  | nil => simp [runCascade, allFailedResult] at h
  | cons s rest ih =>
    cases hs : (o.result s).success with
    | true =>
      refine ⟨s, ?_⟩
      simp [runCascade, hs]
    | false =>
      rw [runCascade] at h ⊢
      simp only [hs, Bool.false_eq_true, if_false] at h ⊢
      obtain ⟨t, ht, hts, htr⟩ := ih h
      refine ⟨t, ?_, hts, htr⟩
      rcases hl : (runCascade o rest).2 with _ | ⟨u, us⟩
      · rw [hl] at ht; simp at ht
      · rw [hl] at ht
        simpa [List.getLast?_cons_cons] using ht

theorem runCascade_failure (o : StrategyOracle) (l : List FetchStrategy)
    (h : (runCascade o l).1.success = false) :
    (∀ s ∈ (runCascade o l).2, (o.result s).success = false) ∧
      (runCascade o l).1 = allFailedResult ∧ (runCascade o l).2 = l := by
  induction l with
  | nil => simp [runCascade]
  | cons s rest ih =>
    cases hs : (o.result s).success with
    | true =>
      rw [runCascade] at h
      simp [hs] at h
    | false =>
      rw [runCascade] at h ⊢
      simp only [hs, Bool.false_eq_true, if_false] at h ⊢
      obtain ⟨hall, hres, htr⟩ := ih h
      refine ⟨?_, hres, by rw [htr]⟩
      intro t ht
      rcases List.mem_cons.1 ht with rfl | hmem
      · exact hs
      · exact hall t hmem

theorem runCascade_result_cases (o : StrategyOracle) (l : List FetchStrategy) :
    (runCascade o l).1 = allFailedResult ∨
      ∃ s ∈ l, (runCascade o l).1 = o.result s := by
  induction l with
  | nil => simp [runCascade]
  | cons s rest ih =>
    cases hs : (o.result s).success with
    | true => exact Or.inr ⟨s, by simp, by simp [runCascade, hs]⟩
    | false =>
      rw [runCascade]
      simp only [hs, Bool.false_eq_true, if_false]
      rcases ih with h | ⟨t, htm, ht⟩
      · exact Or.inl h
      · exact Or.inr ⟨t, by simp [htm], ht⟩

theorem runCascade_all_fail (o : StrategyOracle) (l : List FetchStrategy)
    (h : ∀ s ∈ l, (o.result s).success = false) :
    runCascade o l = (allFailedResult, l) := by
  induction l with
  | nil => rfl
  | cons s rest ih =>
    have hs : (o.result s).success = false := h s (List.mem_cons_self s rest)
    have ihr := ih (fun t ht => h t (List.mem_cons_of_mem s ht))
    rw [runCascade]
    simp [hs, ihr]

theorem runCascade_first_success (o : StrategyOracle) :
    ∀ (l₁ : List FetchStrategy) (s : FetchStrategy) (l₂ : List FetchStrategy),
      (∀ t ∈ l₁, (o.result t).success = false) →
      (o.result s).success = true →
      runCascade o (l₁ ++ s :: l₂) = (o.result s, l₁ ++ [s]) := by
  intro l₁
  induction l₁ with
  | nil =>
    intro s l₂ _ hs
    rw [List.nil_append, runCascade]
    simp [hs]
  | cons t ts ih =>
    intro s l₂ hfail hs
    have ht : (o.result t).success = false := hfail t (List.mem_cons_self t ts)
    have ihr := ih s l₂ (fun u hu => hfail u (List.mem_cons_of_mem t hu)) hs
    rw [List.cons_append, runCascade]
    simp [ht, ihr]

theorem eligibleStrategies_sublist (hF hT wf : Bool) :
    (eligibleStrategies hF hT wf).Sublist
      [FetchStrategy.api_search, FetchStrategy.rss_feed,
        FetchStrategy.web_scraper] := by
  cases hF <;> cases hT <;> cases wf <;> decide

theorem eligibleStrategies_no_api (hF hT wf : Bool)
    (h : ¬(hF = true ∧ hT = true)) :
    FetchStrategy.api_search ∉ eligibleStrategies hF hT wf := by
  cases hF <;> cases hT <;> cases wf <;> simp_all <;> decide

theorem eligibleStrategies_no_web (hF hT : Bool) :
    FetchStrategy.web_scraper ∉ eligibleStrategies hF hT false := by
  cases hF <;> cases hT <;> decide

/-- C1: `fetch_papers` attempts strategies in the fixed order primary
search (only when both dates are given), feed, then web scraper (only
when web fallback is enabled), each at most once, stopping at the first
success; if every attempted strategy fails it returns the fixed failed
envelope (`success = false`, `strategy_used = none`, no papers, message
"All fetch strategies failed").  The embedding is a total function, so
the call itself never raises.  The final two conjuncts characterize the
cascade completely: when every eligible strategy fails, every one of
them is attempted, in order, and the fixed envelope is returned; and
for the first succeeding strategy in the eligible order, all earlier
eligible strategies are attempted and fail, that strategy's own result
is returned verbatim, and nothing after it is attempted. -/
theorem claim_C1_fetch_cascade (o : StrategyOracle) (hF hT wf : Bool) :
    (fetchPapersTrace o hF hT wf).2.Sublist
      [FetchStrategy.api_search, FetchStrategy.rss_feed,
        FetchStrategy.web_scraper] ∧
    (fetchPapersTrace o hF hT wf).2.Nodup ∧
    (¬(hF = true ∧ hT = true) →
      FetchStrategy.api_search ∉ (fetchPapersTrace o hF hT wf).2) ∧
    (wf = false →
      FetchStrategy.web_scraper ∉ (fetchPapersTrace o hF hT wf).2) ∧
    (∀ s ∈ (fetchPapersTrace o hF hT wf).2.dropLast,
      (o.result s).success = false) ∧
    ((fetchPapersTrace o hF hT wf).1.success = true →
      ∃ s, (fetchPapersTrace o hF hT wf).2.getLast? = some s ∧
        (o.result s).success = true ∧
        (fetchPapersTrace o hF hT wf).1 = o.result s) ∧
    ((∀ s ∈ (fetchPapersTrace o hF hT wf).2, (o.result s).success = false) →
      (fetchPapersTrace o hF hT wf).1 = allFailedResult ∧
      (fetchPapersTrace o hF hT wf).1.success = false ∧
      (fetchPapersTrace o hF hT wf).1.strategy_used = none ∧
      (fetchPapersTrace o hF hT wf).1.papers = [] ∧
      (fetchPapersTrace o hF hT wf).1.error_message =
        some "All fetch strategies failed") ∧
    ((∀ s ∈ eligibleStrategies hF hT wf, (o.result s).success = false) →
      fetchPapersTrace o hF hT wf =
        (allFailedResult, eligibleStrategies hF hT wf)) ∧
    (∀ l₁ s l₂, eligibleStrategies hF hT wf = l₁ ++ s :: l₂ →
      (∀ t ∈ l₁, (o.result t).success = false) →
      (o.result s).success = true →
      fetchPapersTrace o hF hT wf = (o.result s, l₁ ++ [s])) := by
  have hsub : (fetchPapersTrace o hF hT wf).2.Sublist
      [FetchStrategy.api_search, FetchStrategy.rss_feed,
        FetchStrategy.web_scraper] :=
    (runCascade_trace_sublist o _).trans (eligibleStrategies_sublist hF hT wf)
  refine ⟨hsub, hsub.nodup (by decide), ?_, ?_, ?_, ?_, ?_, ?_, ?_⟩
  · intro hnd hmem
    exact eligibleStrategies_no_api hF hT wf hnd
      ((runCascade_trace_sublist o _).subset hmem)
  · rintro rfl hmem
    exact eligibleStrategies_no_web hF hT
      ((runCascade_trace_sublist o _).subset hmem)
  · exact runCascade_dropLast_failed o _
  · exact runCascade_success o _
  · intro hall
    cases hsucc : (fetchPapersTrace o hF hT wf).1.success with
    | true =>
      obtain ⟨s, hlast, hsuc, _⟩ := runCascade_success o _ hsucc
      have := hall s (List.mem_of_getLast?_eq_some hlast)
      rw [this] at hsuc
      cases hsuc
    | false =>
      obtain ⟨_, hres, _⟩ := runCascade_failure o _ hsucc
      have hres' : (fetchPapersTrace o hF hT wf).1 = allFailedResult := hres
      refine ⟨hres', ?_, ?_, ?_, ?_⟩ <;> simp [hres', allFailedResult]
  · intro hall
    rw [fetchPapersTrace]
    exact runCascade_all_fail o _ hall
  · intro l₁ s l₂ hdec hfail hs
    rw [fetchPapersTrace, hdec]
    exact runCascade_first_success o l₁ s l₂ hfail hs

/-- A strategy oracle in which every strategy fails. -/
def oracleAllFail : StrategyOracle :=
  { api := { success := false, error_message := some "API error" },
    rss := { success := false, error_message := some "RSS error" },
    web := { success := false, error_message := some "Web error" } }

/-- A concrete fetched paper, as in the fetcher unit-test fixtures. -/
def fetchedPaper : ArxivPaper :=
  { title := "Test Paper", summary := "This is a test abstract.",
    authors := ["Alice", "Bob"], arxiv_id := "2312.12345",
    pdf_url := "https://arxiv.org/pdf/2312.12345.pdf",
    published_date := some 20231223 }

/-- A strategy oracle mirroring `test_fetch_papers_rss_fallback`: the
primary search fails, the feed succeeds with one paper. -/
def oracleRssFallback : StrategyOracle :=
  { api := { papers := [], strategy_used := some .api_search,
             success := false, error_message := some "API error" },
    rss := { papers := [fetchedPaper], strategy_used := some .rss_feed,
             success := true },
    web := { success := false, error_message := some "Web error" } }

/-- Witness for C1, the feed-fallback scenario of
`test_fetch_papers_rss_fallback`: with dates given, a failing primary
search and a succeeding feed, the cascade attempts the primary search
then the feed, stops there, and returns the feed's result verbatim —
`strategy_used` is the feed, `success` holds and the feed's one paper
is returned. -/
theorem claim_C1_fetch_cascade_witness :
    fetchPapersTrace oracleRssFallback true true true =
      (oracleRssFallback.rss,
        [FetchStrategy.api_search, FetchStrategy.rss_feed]) ∧
    (fetchPapersTrace oracleRssFallback true true true).1.strategy_used =
      some FetchStrategy.rss_feed ∧
    (fetchPapersTrace oracleRssFallback true true true).1.success = true ∧
    (fetchPapersTrace oracleRssFallback true true true).1.papers.length = 1 := by
  have h := (claim_C1_fetch_cascade oracleRssFallback
      true true true).2.2.2.2.2.2.2.2
    [FetchStrategy.api_search] FetchStrategy.rss_feed
    [FetchStrategy.web_scraper] rfl (by decide) rfl
  refine ⟨h, ?_, ?_, ?_⟩ <;> rw [h] <;> rfl

/-- Modelled from the spec: the retry loop inside
`_fetch_with_api_search` (absent from the sources).  `attempt i` is the
outcome of the `i`-th API attempt — a list of parsed papers, or the
message of the exception it raised.  The loop makes at most `n` further
attempts, increments the retry count on each exception, stops at the
first non-raising attempt, and after exhausting retries marks the
strategy failed with the last exception's message.  The second
component counts the attempts actually made. -/
def retryLoop (attempt : Nat → Except String (List ArxivPaper)) :
    Nat → Nat → Option String → FetchResult × Nat
  | 0, rc, lastErr =>
    ({ papers := [], strategy_used := some .api_search, success := false,
       error_message := lastErr, retry_count := rc }, 0)
  | n + 1, rc, _ =>
    match attempt rc with
    | .ok ps =>
      ({ papers := ps, strategy_used := some .api_search, success := true,
         error_message := none, retry_count := rc }, 1)
    | .error e =>
      let p := retryLoop attempt n (rc + 1) (some e)
      (p.1, p.2 + 1)

/-- Modelled from the spec: `_fetch_with_api_search` with its network
interaction abstracted into `attempt`, configured for `maxRetries`
attempts. -/
def fetchWithApiSearch (attempt : Nat → Except String (List ArxivPaper))
    (maxRetries : Nat) : FetchResult × Nat :=
  retryLoop attempt maxRetries 0 none

theorem retryLoop_all_error (attempt : Nat → Except String (List ArxivPaper))
    (err : Nat → String) :
    ∀ n rc le, (∀ i, i < n → attempt (rc + i) = .error (err (rc + i))) →
    retryLoop attempt n rc le =
      ({ papers := [], strategy_used := some .api_search, success := false,
         error_message := if n = 0 then le else some (err (rc + n - 1)),
         retry_count := rc + n }, n) := by
  intro n
  induction n with
  | zero => intro rc le _; simp [retryLoop]
  | succ m ih =>
    intro rc le h
    have h0 : attempt rc = .error (err rc) := by simpa using h 0 (by omega)
    have hrec := ih (rc + 1) (some (err rc)) (by
      intro i hi
      have := h (i + 1) (by omega)
      simpa [Nat.add_assoc, Nat.add_comm 1 i] using this)
    rw [retryLoop, h0]
    simp only [hrec]
    cases m with
    | zero => simp
    | succ m' =>
      have h2 : rc + 1 + (m' + 1) - 1 = rc + (m' + 1 + 1) - 1 := by omega
      have h3 : rc + 1 + (m' + 1) = rc + (m' + 1 + 1) := by omega
      simp only [h2, h3, Nat.succ_ne_zero, if_false, reduceIte]

theorem retryLoop_first_ok (attempt : Nat → Except String (List ArxivPaper))
    (ps : List ArxivPaper) :
    ∀ j n rc le, j < n →
      (∀ i, i < j → ∃ e, attempt (rc + i) = .error e) →
      attempt (rc + j) = .ok ps →
      retryLoop attempt n rc le =
        ({ papers := ps, strategy_used := some .api_search, success := true,
           error_message := none, retry_count := rc + j }, j + 1) := by
  intro j
  induction j with
  | zero =>
    intro n rc le hn _ hok
    cases n with
    | zero => omega
    | succ m =>
      rw [retryLoop]
      simp only [Nat.add_zero] at hok
      rw [hok]
      simp
  | succ k ih =>
    intro n rc le hn herr hok
    cases n with
    | zero => omega
    | succ m =>
      obtain ⟨e, he⟩ := herr 0 (by omega)
      simp only [Nat.add_zero] at he
      rw [retryLoop, he]
      have hrec := ih m (rc + 1) (some e) (by omega)
        (by
          intro i hi
          obtain ⟨e', he'⟩ := herr (i + 1) (by omega)
          exact ⟨e', by simpa [Nat.add_assoc, Nat.add_comm 1 i] using he'⟩)
        (by simpa [Nat.add_assoc, Nat.add_comm 1 k] using hok)
      simp only [hrec]
      have h3 : rc + 1 + k = rc + (k + 1) := by omega
      rw [h3]

/-- C3: with `max_retries = k`, if every attempt raises then exactly `k`
attempts are made and the result is a failed envelope with
`retry_count = k` carrying the last exception's message; while a
non-raising attempt ends the loop at once with a successful result whose
retry count is the number of prior raising attempts. -/
theorem claim_C3_api_retry (attempt : Nat → Except String (List ArxivPaper))
    (err : Nat → String) (k : Nat) (hk : 0 < k) :
    ((∀ i, i < k → attempt i = .error (err i)) →
      fetchWithApiSearch attempt k =
        ({ papers := [], strategy_used := some .api_search, success := false,
           error_message := some (err (k - 1)), retry_count := k }, k)) ∧
    (∀ j ps, j < k → (∀ i, i < j → attempt i = .error (err i)) →
      attempt j = .ok ps →
      fetchWithApiSearch attempt k =
        ({ papers := ps, strategy_used := some .api_search, success := true,
           error_message := none, retry_count := j }, j + 1)) := by
  constructor
  · intro h
    have := retryLoop_all_error attempt err k 0 none (by simpa using h)
    rw [fetchWithApiSearch, this]
    have hk' : ¬(k = 0) := by omega
    simp [hk']
  · intro j ps hj herr hok
    have := retryLoop_first_ok attempt ps j k 0 none hj
      (by intro i hi; exact ⟨err i, by simpa using herr i hi⟩)
      (by simpa using hok)
    rw [fetchWithApiSearch, this]
    simp

/-- Witness for C3: three attempts that all raise "Network error" yield
three attempts made, a failed result, `retry_count = 3` and the last
error message. -/
theorem claim_C3_api_retry_witness :
    fetchWithApiSearch (fun _ => .error "Network error") 3 =
      ({ papers := [], strategy_used := some .api_search, success := false,
         error_message := some "Network error", retry_count := 3 }, 3) :=
  (claim_C3_api_retry (fun _ => .error "Network error")
    (fun _ => "Network error") 3 (by decide)).1 (fun _ _ => rfl)

/-- The `FetchResult` well-formedness invariant of the spec's data
model: a successful envelope carries no error message, and an envelope
with no producing strategy is never successful. -/
def FetchResultInvariant (r : FetchResult) : Prop :=
  (r.success = true → r.error_message = none) ∧
    (r.strategy_used = none → r.success = false)

theorem retryLoop_invariant (attempt : Nat → Except String (List ArxivPaper)) :
    ∀ n rc le, FetchResultInvariant (retryLoop attempt n rc le).1 := by
  intro n
  induction n with
  | zero => intro rc le; exact ⟨by simp [retryLoop], by simp [retryLoop]⟩
  | succ m ih =>
    intro rc le
    rw [retryLoop]
    cases hatt : attempt rc with
    | ok ps => exact ⟨fun _ => rfl, by simp⟩
    | error e => exact ih (rc + 1) (some e)

/-- C5: every `FetchResult` the fetcher default-constructs or produces
satisfies both implications: success implies a `none` error message, and
a `none` producing strategy implies failure.  For the cascade this holds
whenever the three strategy implementations themselves respect the
invariant, which the modelled primary-search strategy does. -/
theorem claim_C5_fetch_result_invariant :
    FetchResultInvariant defaultFetchResult ∧
    FetchResultInvariant allFailedResult ∧
    (∀ attempt k, FetchResultInvariant (fetchWithApiSearch attempt k).1) ∧
    (∀ o hF hT wf, FetchResultInvariant o.api → FetchResultInvariant o.rss →
      FetchResultInvariant o.web →
      FetchResultInvariant (fetchPapersTrace o hF hT wf).1) := by
  refine ⟨⟨by simp [defaultFetchResult], fun _ => rfl⟩,
    ⟨by simp [allFailedResult], fun _ => rfl⟩,
    fun attempt k => retryLoop_invariant attempt k 0 none, ?_⟩
  intro o hF hT wf hapi hrss hweb
  rcases runCascade_result_cases o
      (eligibleStrategies hF hT wf) with h | ⟨s, _, h⟩
  · rw [fetchPapersTrace, h]
    exact ⟨by simp [allFailedResult], fun _ => rfl⟩
  · rw [fetchPapersTrace, h]
    cases s with
    | api_search => exact hapi
    | rss_feed => exact hrss
    | web_scraper => exact hweb

/-- Witness for C5: the invariant holds for the envelope produced by a
cascade over the all-failing oracle, whose strategy results themselves
satisfy the invariant. -/
theorem claim_C5_fetch_result_invariant_witness :
    FetchResultInvariant (fetchPapersTrace oracleAllFail true true true).1 :=
  claim_C5_fetch_result_invariant.2.2.2 oracleAllFail true true true
    ⟨by simp [oracleAllFail], fun _ => rfl⟩
    ⟨by simp [oracleAllFail], fun _ => rfl⟩
    ⟨by simp [oracleAllFail], fun _ => rfl⟩

/-- Modelled from the spec: the convenience wrapper
`fetch_arxiv_papers` (absent from the sources), which raises a
descriptive `ValueError` exactly when the underlying fetch reports
failure; raising is embedded as `Except.error`. -/
def fetchArxivPapers (o : StrategyOracle) (hF hT wf : Bool) :
    Except String (List ArxivPaper) :=
  let r := (fetchPapersTrace o hF hT wf).1
  if r.success then .ok r.papers
  else .error ("Failed to fetch papers: " ++ r.error_message.getD "Unknown error")

/-- C10: the convenience wrapper raises a descriptive `ValueError`
exactly when the fetch reports failure and otherwise returns the fetched
papers, while the core entry point surfaces total failure as a
non-raising failed envelope. -/
theorem claim_C10_wrapper_raises (o : StrategyOracle) (hF hT wf : Bool) :
    ((fetchPapersTrace o hF hT wf).1.success = true →
      fetchArxivPapers o hF hT wf =
        .ok (fetchPapersTrace o hF hT wf).1.papers) ∧
    ((fetchPapersTrace o hF hT wf).1.success = false →
      fetchArxivPapers o hF hT wf =
        .error ("Failed to fetch papers: " ++
          (fetchPapersTrace o hF hT wf).1.error_message.getD "Unknown error")) ∧
    ((∀ s, (o.result s).success = false) →
      (fetchPapersTrace o hF hT wf).1 = allFailedResult ∧
      fetchArxivPapers o hF hT wf =
        .error "Failed to fetch papers: All fetch strategies failed") := by
  refine ⟨fun h => by simp [fetchArxivPapers, h], fun h => by
    simp [fetchArxivPapers, h], ?_⟩
  intro hall
  cases hsucc : (fetchPapersTrace o hF hT wf).1.success with
  | true =>
    obtain ⟨s, _, hsuc, _⟩ := runCascade_success o _ hsucc
    rw [hall s] at hsuc
    cases hsuc
  | false =>
    obtain ⟨_, hres, _⟩ := runCascade_failure o _ hsucc
    have hres' : (fetchPapersTrace o hF hT wf).1 = allFailedResult := hres
    refine ⟨hres', ?_⟩
    rw [fetchArxivPapers]
    simp only [hres']
    rfl

/-- Witness for C10: the wrapper raises the descriptive message when all
strategies fail (here with web fallback disabled). -/
theorem claim_C10_wrapper_raises_witness :
    fetchArxivPapers oracleAllFail true true false =
      .error "Failed to fetch papers: All fetch strategies failed" :=
  ((claim_C10_wrapper_raises oracleAllFail true true false).2.2
    (fun s => by cases s <;> rfl)).2

/-- Modelled from the spec: one raw Zotero corpus record as consumed by
the reranker (`alithia.arxrec.reranker`, absent from the sources).  A
missing or structurally invalid `abstractNote` is `none`; `dateAdded`
is an integer timestamp. -/
structure CorpusEntry where
  abstractNote : Option String
  dateAdded : Int
deriving DecidableEq

/-- Modelled from the spec: the `ScoredPaper` container of
`alithia.arxrec.models` (absent from the sources): a paper paired with
its numeric relevance score and named relevance sub-factors. -/
structure ScoredPaper where
  paper : ArxivPaper
  score : ℚ
  relevance_factors : List (String × ℚ)
deriving DecidableEq

/-- Modelled from the spec: `ScoredPaper` construction, whose validator
synchronizes the wrapped paper's own score field with the assigned
score. -/
def mkScoredPaper (p : ArxivPaper) (s : ℚ) (rf : List (String × ℚ)) :
    ScoredPaper :=
  { paper := { p with score := some s }, score := s, relevance_factors := rf }

/-- A candidate is scorable when its abstract is not empty or
whitespace-only. -/
def validSummary (p : ArxivPaper) : Bool := !(p.summary.trim == "")

/-- A corpus record is usable when it carries a non-empty abstract. -/
def validCorpusEntry (e : CorpusEntry) : Bool :=
  match e.abstractNote with
  | none => false
  | some s => !(s == "")

/-- The fixed neutral relevance score used by both fallback paths. -/
def neutralScore : ℚ := 5

/-- Insertion step of the reranker's final descending sort by score. -/
def insertDesc (sp : ScoredPaper) : List ScoredPaper → List ScoredPaper
  | [] => [sp]
  | x :: xs => if x.score ≤ sp.score then sp :: x :: xs else x :: insertDesc sp xs

/-- The reranker's final sort: scores descending. -/
def sortDesc : List ScoredPaper → List ScoredPaper
  | [] => []
  | x :: xs => insertDesc x (sortDesc xs)

theorem mem_insertDesc (a sp : ScoredPaper) (l : List ScoredPaper) :
    a ∈ insertDesc sp l ↔ a = sp ∨ a ∈ l := by
  induction l with
  | nil => simp [insertDesc]
  | cons x xs ih =>
    rw [insertDesc]
    by_cases h : x.score ≤ sp.score
    · simp [h]
    · simp only [h, if_false, List.mem_cons, ih]
      tauto

theorem mem_sortDesc (a : ScoredPaper) (l : List ScoredPaper) :
    a ∈ sortDesc l ↔ a ∈ l := by
  induction l with
  | nil => simp [sortDesc]
  | cons x xs ih => simp [sortDesc, mem_insertDesc, ih]

/-- Oracle environment for one `rerank_sentence_transformer` call:
the candidate papers and corpus records, whether the
sentence-transformers dependency can be imported, whether the batched
embedding / cosine-similarity computation succeeds, and (when it does)
the numeric outcome of that computation for the `i`-th scorable
candidate — the decayed similarity aggregate and the highest single
pairwise similarity. -/
structure RerankEnv where
  papers : List ArxivPaper
  corpus : List CorpusEntry
  stInstalled : Bool
  encodeOk : Bool
  scoreOf : Nat → ℚ
  maxSimOf : Nat → ℚ

/-- Modelled from the spec: `PaperReranker.rerank_sentence_transformer`
(absent from the sources).  The import of sentence-transformers happens
first and a failed import raises `ImportError("SentenceTransformer is
not installed")` — per `test_rerank_sentence_transformer_missing_import`
— embedded as `Except.error`.  Then: empty candidate list returns empty;
empty corpus returns the fixed neutral score tagged `default` for every
candidate; an exception inside the embedding/similarity block makes the
entire batch fall back to the neutral score tagged `error_fallback`;
otherwise candidates with blank abstracts are dropped, each remaining
candidate is scored by the similarity oracle, and the output is sorted
by score descending. -/
def rerankSentenceTransformer (env : RerankEnv) :
    Except String (List ScoredPaper) :=
  if !env.stInstalled then .error "SentenceTransformer is not installed"
  else if env.papers.isEmpty then .ok []
  else if env.corpus.isEmpty then
    .ok (env.papers.map fun p =>
      mkScoredPaper p neutralScore [("default", neutralScore)])
  else if !env.encodeOk then
    .ok (env.papers.map fun p =>
      mkScoredPaper p neutralScore [("error_fallback", neutralScore)])
  else
    let valid := env.papers.filter validSummary
    let ncorpus := (env.corpus.filter validCorpusEntry).length
    .ok (sortDesc (valid.enum.map fun q =>
      mkScoredPaper q.2 (env.scoreOf q.1)
        [("corpus_similarity", env.scoreOf q.1),
         ("corpus_size", (ncorpus : ℚ)),
         ("max_similarity", env.maxSimOf q.1)]))

/-- A concrete candidate paper, as in the unit-test fixtures. -/
def samplePaper : ArxivPaper :=
  { title := "Machine Learning Paper",
    summary := "This paper discusses machine learning algorithms.",
    authors := ["Alice"], arxiv_id := "2312.00001", pdf_url := "url1" }

/-- A concrete corpus record, as in the unit-test fixtures. -/
def sampleEntry : CorpusEntry :=
  { abstractNote := some "Deep learning is a subset of machine learning.",
    dateAdded := 0 }

/-- A reranking call on a non-empty candidate list and corpus in which
the sentence-transformers dependency is missing. -/
def envMissingImport : RerankEnv :=
  { papers := [samplePaper], corpus := [sampleEntry],
    stInstalled := false, encodeOk := true,
    scoreOf := fun _ => 0, maxSimOf := fun _ => 0 }

/-- Counterexample to C2: when the sentence-transformers dependency is
missing, reranking a non-empty candidate list raises
`ImportError("SentenceTransformer is not installed")` instead of
returning neutral `error_fallback` scores, contradicting the claim that
a missing dependency never raises. -/
theorem claim_C2_counterexample :
    rerankSentenceTransformer envMissingImport =
      .error "SentenceTransformer is not installed" := rfl

/-- C2 (amended): against an empty corpus every returned result carries
the fixed neutral score tagged `default`; when the embedding or
similarity computation raises during scoring, reranking does not raise
and returns every candidate with the neutral score tagged
`error_fallback`; but a missing sentence-transformers dependency raises
`ImportError` before any scoring. -/
theorem claim_C2_neutral_fallbacks (env : RerankEnv)
    (hne : env.papers ≠ []) :
    (env.stInstalled = false →
      rerankSentenceTransformer env =
        .error "SentenceTransformer is not installed") ∧
    (env.stInstalled = true → env.corpus = [] →
      rerankSentenceTransformer env =
        .ok (env.papers.map fun p =>
          mkScoredPaper p neutralScore [("default", neutralScore)]) ∧
      ∀ l, rerankSentenceTransformer env = .ok l →
        l.length = env.papers.length ∧
        ∀ sp ∈ l, sp.score = neutralScore ∧
          ("default", neutralScore) ∈ sp.relevance_factors) ∧
    (env.stInstalled = true → env.corpus ≠ [] → env.encodeOk = false →
      rerankSentenceTransformer env =
        .ok (env.papers.map fun p =>
          mkScoredPaper p neutralScore [("error_fallback", neutralScore)]) ∧
      ∀ l, rerankSentenceTransformer env = .ok l →
        l.length = env.papers.length ∧
        ∀ sp ∈ l, sp.score = neutralScore ∧
          ("error_fallback", neutralScore) ∈ sp.relevance_factors) := by
  refine ⟨fun hst => by simp [rerankSentenceTransformer, hst], ?_, ?_⟩
  · intro hst hc
    have heq : rerankSentenceTransformer env =
        .ok (env.papers.map fun p =>
          mkScoredPaper p neutralScore [("default", neutralScore)]) := by
      simp [rerankSentenceTransformer, hst, hc,
        List.isEmpty_iff.not.mpr hne]
    refine ⟨heq, fun l hl => ?_⟩
    rw [heq] at hl
    injection hl with hl
    subst hl
    refine ⟨by simp, fun sp hsp => ?_⟩
    obtain ⟨p, _, rfl⟩ := List.mem_map.1 hsp
    exact ⟨rfl, by simp [mkScoredPaper]⟩
  · intro hst hc henc
    have heq : rerankSentenceTransformer env =
        .ok (env.papers.map fun p =>
          mkScoredPaper p neutralScore [("error_fallback", neutralScore)]) := by
      simp [rerankSentenceTransformer, hst, henc,
        List.isEmpty_iff.not.mpr hne, List.isEmpty_iff.not.mpr hc]
    refine ⟨heq, fun l hl => ?_⟩
    rw [heq] at hl
    injection hl with hl
    subst hl
    refine ⟨by simp, fun sp hsp => ?_⟩
    obtain ⟨p, _, rfl⟩ := List.mem_map.1 hsp
    exact ⟨rfl, by simp [mkScoredPaper]⟩

/-- A reranking call where the encoder raises during scoring. -/
def envEncodeFails : RerankEnv :=
  { papers := [samplePaper], corpus := [sampleEntry],
    stInstalled := true, encodeOk := false,
    scoreOf := fun _ => 0, maxSimOf := fun _ => 0 }

/-- Witness for C2 (amended): with one candidate and one corpus record
and an encoder that raises, reranking returns the candidate with the
neutral score tagged `error_fallback`. -/
theorem claim_C2_neutral_fallbacks_witness :
    rerankSentenceTransformer envEncodeFails =
      .ok [mkScoredPaper samplePaper neutralScore
        [("error_fallback", neutralScore)]] :=
  ((claim_C2_neutral_fallbacks envEncodeFails (by decide)).2.2
    rfl (by decide) rfl).1

/-- C6: every `ScoredPaper` construction synchronizes the wrapped
paper's own score field — both for the constructor itself and for every
element of every list the reranker returns. -/
theorem claim_C6_score_sync :
    (∀ p s rf, (mkScoredPaper p s rf).paper.score =
      some (mkScoredPaper p s rf).score) ∧
    (∀ env l, rerankSentenceTransformer env = .ok l →
      ∀ sp ∈ l, sp.paper.score = some sp.score) := by
  refine ⟨fun p s rf => rfl, fun env l hl sp hsp => ?_⟩
  rw [rerankSentenceTransformer] at hl
  by_cases hst : env.stInstalled
  · simp only [hst, Bool.not_true, Bool.false_eq_true, if_false] at hl
    by_cases hp : env.papers.isEmpty
    · simp only [hp, if_true] at hl
      injection hl with hl
      subst hl
      cases hsp
    · simp only [hp, Bool.false_eq_true, if_false] at hl
      by_cases hc : env.corpus.isEmpty
      · simp only [hc, if_true] at hl
        injection hl with hl
        subst hl
        obtain ⟨p, _, rfl⟩ := List.mem_map.1 hsp
        rfl
      · simp only [hc, Bool.false_eq_true, if_false] at hl
        by_cases he : env.encodeOk
        · simp only [he, Bool.not_true, Bool.false_eq_true, if_false] at hl
          injection hl with hl
          subst hl
          rw [mem_sortDesc] at hsp
          obtain ⟨q, _, rfl⟩ := List.mem_map.1 hsp
          rfl
        · simp only [he, Bool.not_false, if_true] at hl
          injection hl with hl
          subst hl
          obtain ⟨p, _, rfl⟩ := List.mem_map.1 hsp
          rfl
  · simp only [hst, Bool.not_false, if_true] at hl
    cases hl

/-- Witness for C6: synchronization on the concrete element produced by
reranking one candidate against an empty corpus. -/
theorem claim_C6_score_sync_witness :
    (mkScoredPaper samplePaper neutralScore
      [("default", neutralScore)]).paper.score =
      some (mkScoredPaper samplePaper neutralScore
        [("default", neutralScore)]).score :=
  claim_C6_score_sync.2
    { papers := [samplePaper], corpus := [], stInstalled := true,
      encodeOk := true, scoreOf := fun _ => 0, maxSimOf := fun _ => 0 }
    [mkScoredPaper samplePaper neutralScore [("default", neutralScore)]]
    rfl _ (by decide)

/-- Modelled from the spec: the raw time-decay weight the reranker
assigns to the corpus entry at 0-indexed position `i` after sorting
newest-first, `1 / (1 + log10(i + 1))`. -/
noncomputable def timeDecayRaw (i : ℕ) : ℝ :=
  1 / (1 + Real.logb 10 ((i : ℝ) + 1))

/-- Modelled from the spec: the normalized time-decay weight for
position `i` in a corpus of size `n`: the raw weight divided by the sum
of all raw weights. -/
noncomputable def timeDecayWeight (n i : ℕ) : ℝ :=
  timeDecayRaw i / ∑ j ∈ Finset.range n, timeDecayRaw j

theorem one_add_logb_pos (i : ℕ) :
    0 < 1 + Real.logb 10 ((i : ℝ) + 1) := by
  have h : (0 : ℝ) ≤ Real.logb 10 ((i : ℝ) + 1) :=
    Real.logb_nonneg (by norm_num) (by
      have : (0 : ℝ) ≤ (i : ℝ) := Nat.cast_nonneg i
      linarith)
  linarith

theorem timeDecayRaw_pos (i : ℕ) : 0 < timeDecayRaw i :=
  one_div_pos.mpr (one_add_logb_pos i)

theorem timeDecayRaw_antitone {i j : ℕ} (h : i ≤ j) :
    timeDecayRaw j ≤ timeDecayRaw i := by
  apply one_div_le_one_div_of_le (one_add_logb_pos i)
  have hlog : Real.logb 10 ((i : ℝ) + 1) ≤ Real.logb 10 ((j : ℝ) + 1) := by
    apply Real.logb_le_logb_of_le (by norm_num)
    · have : (0 : ℝ) ≤ (i : ℝ) := Nat.cast_nonneg i
      linarith
    · have : (i : ℝ) ≤ (j : ℝ) := Nat.cast_le.mpr h
      linarith
  linarith

theorem timeDecayRaw_zero : timeDecayRaw 0 = 1 := by
  simp [timeDecayRaw, Real.logb_one]

theorem timeDecayRaw_lt_one {i : ℕ} (hi : 0 < i) : timeDecayRaw i < 1 := by
  rw [timeDecayRaw, div_lt_one (one_add_logb_pos i)]
  have h : (0 : ℝ) < Real.logb 10 ((i : ℝ) + 1) := by
    apply Real.logb_pos (by norm_num)
    have : (1 : ℝ) ≤ (i : ℝ) := by exact_mod_cast hi
    linarith
  linarith

theorem sum_timeDecayRaw_pos {n : ℕ} (hn : 0 < n) :
    0 < ∑ j ∈ Finset.range n, timeDecayRaw j :=
  Finset.sum_pos (fun j _ => timeDecayRaw_pos j)
    (Finset.nonempty_range_iff.mpr (by omega))

/-- C4: in a corpus of size `n` (sorted newest-first) the weight at
position `i` is `1/(1 + log10(i+1))` normalized so the weight vector
sums to 1; the normalized weights are monotonically non-increasing,
strictly positive, and position 0 carries the single largest weight. -/
theorem claim_C4_time_decay (n : ℕ) (hn : 0 < n) :
    (∀ i, timeDecayWeight n i =
      (1 / (1 + Real.logb 10 ((i : ℝ) + 1))) /
        ∑ j ∈ Finset.range n, (1 / (1 + Real.logb 10 ((j : ℝ) + 1)))) ∧
    (∑ i ∈ Finset.range n, timeDecayWeight n i = 1) ∧
    (∀ i j, i ≤ j → timeDecayWeight n j ≤ timeDecayWeight n i) ∧
    (∀ i, 0 < timeDecayWeight n i) ∧
    (∀ i, 0 < i → timeDecayWeight n i < timeDecayWeight n 0) := by
  have hS := sum_timeDecayRaw_pos hn
  refine ⟨fun i => rfl, ?_, ?_, ?_, ?_⟩
  · simp only [timeDecayWeight]
    rw [← Finset.sum_div]
    exact div_self (ne_of_gt hS)
  · intro i j hij
    exact (div_le_div_iff_of_pos_right hS).mpr (timeDecayRaw_antitone hij)
  · intro i
    exact div_pos (timeDecayRaw_pos i) hS
  · intro i hi
    apply (div_lt_div_iff_of_pos_right hS).mpr
    rw [timeDecayRaw_zero]
    exact timeDecayRaw_lt_one hi

/-- Witness for C4: for a two-entry corpus the normalized weights sum
to 1. -/
theorem claim_C4_time_decay_witness :
    0 < 2 ∧ ∑ i ∈ Finset.range 2, timeDecayWeight 2 i = 1 :=
  ⟨by decide, (claim_C4_time_decay 2 (by decide)).2.1⟩

/-- Python's `str.split(sep)` for a one-character separator, on strings
as character lists: always yields at least one (possibly empty) piece
and one extra piece per separator occurrence. -/
def pySplit (c : Char) : List Char → List (List Char)
  | [] => [[]]
  | x :: xs =>
    match pySplit c xs with
    | [] => [[]]
    | y :: ys => if x = c then [] :: y :: ys else (x :: y) :: ys

/-- Python's `str.strip()` on strings as character lists. -/
def pyStrip (l : List Char) : List Char :=
  ((l.dropWhile Char.isWhitespace).reverse.dropWhile Char.isWhitespace).reverse

/-- Python's `sep.join(pieces)` on strings as character lists. -/
def pyJoin (sep : List Char) : List (List Char) → List Char
  | [] => []
  | [x] => x
  | x :: y :: ys => x ++ sep ++ pyJoin sep (y :: ys)

/-- Modelled from the spec: `_build_category_query` of
`alithia.arxrec.arxiv_paper_utils` (absent from the sources) — split the
category expression on `+`, strip each token, drop empty tokens, prepend
`cat:` and join with ` OR `. -/
def buildCategoryQuery (expr : List Char) : List Char :=
  pyJoin (" OR ".toList)
    ((((pySplit '+' expr).map pyStrip).filter fun t => !t.isEmpty).map
      fun t => "cat:".toList ++ t)

/-- Modelled from the spec: `build_arxiv_search_query` (absent from the
sources) — parenthesize the category query and append the submitted-date
range, date strings passed through unvalidated. -/
def buildArxivSearchQuery (expr fromT toT : List Char) : List Char :=
  "(".toList ++ buildCategoryQuery expr ++ ") AND submittedDate:[".toList ++
    fromT ++ " TO ".toList ++ toT ++ "]".toList

theorem pySplit_ne_nil (c : Char) (l : List Char) : pySplit c l ≠ [] := by
  cases l with
  | nil => simp [pySplit]
  | cons x xs =>
    rw [pySplit]
    cases h : pySplit c xs with
    | nil => simp
    | cons y ys =>
      by_cases hx : x = c <;> simp [hx]

theorem pySplit_no_sep (c : Char) (l : List Char) (h : c ∉ l) :
    pySplit c l = [l] := by
  induction l with
  | nil => simp [pySplit]
  | cons x xs ih =>
    have hx : ¬(x = c) := fun he => h (he ▸ List.mem_cons_self x xs)
    have hxs : c ∉ xs := fun hm => h (List.mem_cons_of_mem x hm)
    rw [pySplit, ih hxs]
    simp [hx]

theorem pySplit_append (c : Char) (a r : List Char) (h : c ∉ a) :
    pySplit c (a ++ c :: r) = a :: pySplit c r := by
  induction a with
  | nil =>
    rw [List.nil_append, pySplit]
    cases hr : pySplit c r with
    | nil => exact absurd hr (pySplit_ne_nil c r)
    | cons y ys => simp
  | cons x xs ih =>
    have hx : ¬(x = c) := fun he => h (he ▸ List.mem_cons_self x xs)
    have hxs : c ∉ xs := fun hm => h (List.mem_cons_of_mem x hm)
    rw [List.cons_append, pySplit, ih hxs]
    simp [hx]

theorem pySplit_join_clean (tokens : List (List Char))
    (h : ∀ t ∈ tokens, t ≠ [] ∧ '+' ∉ t ∧ pyStrip t = t) :
    (((pySplit '+' (pyJoin ['+'] tokens)).map pyStrip).filter
      fun t => !t.isEmpty) = tokens := by
  induction tokens with
  | nil => simp [pyJoin, pySplit, pyStrip]
  | cons t rest ih =>
    obtain ⟨hne, hplus, hstrip⟩ := h t (List.mem_cons_self t rest)
    cases rest with
    | nil =>
      rw [pyJoin, pySplit_no_sep _ _ hplus]
      simp [hstrip, hne]
    | cons t' ts =>
      have hjoin : pyJoin ['+'] (t :: t' :: ts) =
          t ++ '+' :: pyJoin ['+'] (t' :: ts) := by
        rw [pyJoin]
        simp
      rw [hjoin, pySplit_append _ _ _ hplus]
      have ihr := ih (fun u hu => h u (List.mem_cons_of_mem t hu))
      simp only [List.map_cons, List.filter_cons, hstrip]
      rw [ihr]
      simp [hne]

/-- C7: the category query builder splits on `+`, strips tokens, drops
empty tokens and joins as `cat:A OR cat:B OR ...` — so on any list of
clean tokens joined by `+` it produces exactly the ` OR `-join of the
`cat:`-prefixed tokens, a single category yields `cat:A` with no `OR` —
and the date-ranged builder wraps the category query in parentheses and
appends the unvalidated date range for all input strings. -/
theorem claim_C7_query_builders :
    (∀ tokens : List (List Char),
      (∀ t ∈ tokens, t ≠ [] ∧ '+' ∉ t ∧ pyStrip t = t) →
      buildCategoryQuery (pyJoin ['+'] tokens) =
        pyJoin (" OR ".toList) (tokens.map fun t => "cat:".toList ++ t)) ∧
    (∀ expr fromT toT, buildArxivSearchQuery expr fromT toT =
      "(".toList ++ buildCategoryQuery expr ++
        ") AND submittedDate:[".toList ++ fromT ++ " TO ".toList ++ toT ++
        "]".toList) ∧
    buildCategoryQuery "cs.AI".toList = "cat:cs.AI".toList ∧
    buildCategoryQuery "cs.AI + cs.CV + cs.LG".toList =
      "cat:cs.AI OR cat:cs.CV OR cat:cs.LG".toList ∧
    buildArxivSearchQuery "cs.AI".toList "202510250000".toList
        "202510252359".toList =
      "(cat:cs.AI) AND submittedDate:[202510250000 TO 202510252359]".toList := by
  refine ⟨?_, fun _ _ _ => rfl, by decide, by decide, by decide⟩
  intro tokens h
  rw [buildCategoryQuery, pySplit_join_clean tokens h]

/-- Witness for C7: two clean tokens joined by `+` produce the
two-category `OR` query. -/
theorem claim_C7_query_builders_witness :
    buildCategoryQuery (pyJoin ['+'] ["cs.AI".toList, "cs.CV".toList]) =
      pyJoin (" OR ".toList)
        (["cs.AI".toList, "cs.CV".toList].map fun t => "cat:".toList ++ t) :=
  claim_C7_query_builders.1 ["cs.AI".toList, "cs.CV".toList] (by decide)

/-- Modelled from the spec: the pagination loop of
`ArxivWebScraper.scrape_arxiv_search` (absent from the sources).
`pages i` is the list of papers the `i`-th results page parses to;
`reqs` counts page requests issued.  The loop requests pages forward,
stopping as soon as a page parses to zero entries or at least
`maxResults` papers have been accumulated. -/
def scrapeGo (pages : Nat → List ArxivPaper) (maxResults : Nat)
    (acc : List ArxivPaper) (pageIdx reqs : Nat) : List ArxivPaper × Nat :=
  if h : acc.length < maxResults then
    if hp : pages pageIdx = [] then (acc, reqs + 1)
    else scrapeGo pages maxResults (acc ++ pages pageIdx) (pageIdx + 1)
      (reqs + 1)
  else (acc, reqs)
termination_by maxResults - acc.length
decreasing_by
  have hlp : 0 < (pages pageIdx).length := List.length_pos.mpr hp
  simp only [List.length_append]
  omega

/-- Modelled from the spec: `scrape_arxiv_search`, truncating the
accumulated papers to `maxResults` and reporting the number of page
requests issued. -/
def scrapeArxivSearch (pages : Nat → List ArxivPaper) (maxResults : Nat) :
    List ArxivPaper × Nat :=
  ((scrapeGo pages maxResults [] 0 0).1.take maxResults,
    (scrapeGo pages maxResults [] 0 0).2)

theorem scrapeGo_reqs_le (pages : Nat → List ArxivPaper) (m : Nat) :
    ∀ fuel acc pageIdx reqs, m - acc.length ≤ fuel →
      (scrapeGo pages m acc pageIdx reqs).2 ≤ reqs + fuel + 1 := by
  intro fuel
  induction fuel with
  | zero =>
    intro acc idx reqs hle
    rw [scrapeGo]
    have hnm : ¬(acc.length < m) := by omega
    rw [dif_neg hnm]
    omega
  | succ f ih =>
    intro acc idx reqs hle
    rw [scrapeGo]
    by_cases h : acc.length < m
    · rw [dif_pos h]
      by_cases hp : pages idx = []
      · rw [dif_pos hp]
        omega
      · rw [dif_neg hp]
        have hlp : 0 < (pages idx).length := List.length_pos.mpr hp
        have := ih (acc ++ pages idx) (idx + 1) (reqs + 1) (by
          simp only [List.length_append]
          omega)
        omega
    · rw [dif_neg h]
      omega

/-- C8: every scrape terminates (the loop is a total function); it
returns at most `maxResults` papers, issues at most `maxResults + 1`
page requests, and stops immediately when the first page parses to zero
entries. -/
theorem claim_C8_scraper_bounded (pages : Nat → List ArxivPaper)
    (maxResults : Nat) :
    (scrapeArxivSearch pages maxResults).1.length ≤ maxResults ∧
    (scrapeArxivSearch pages maxResults).2 ≤ maxResults + 1 ∧
    (pages 0 = [] → (scrapeArxivSearch pages maxResults).1 = [] ∧
      (scrapeArxivSearch pages maxResults).2 ≤ 1) := by
  refine ⟨List.length_take_le maxResults _, ?_, ?_⟩
  · have := scrapeGo_reqs_le pages maxResults maxResults [] 0 0 (by simp)
    simpa [scrapeArxivSearch] using this
  · intro h0
    rw [scrapeArxivSearch, scrapeGo]
    by_cases hm : ([] : List ArxivPaper).length < maxResults
    · rw [dif_pos hm, dif_pos h0]
      simp
    · rw [dif_neg hm]
      simp

/-- Witness for C8: when the very first page is empty the scrape
returns nothing after a single request. -/
theorem claim_C8_scraper_bounded_witness :
    (scrapeArxivSearch (fun _ => []) 100).1 = [] ∧
      (scrapeArxivSearch (fun _ => []) 100).2 ≤ 1 :=
  (claim_C8_scraper_bounded (fun _ => []) 100).2.2 rfl

/-- Modelled from the spec: the keep predicate of
`ArxivWebScraper._filter_by_date` (absent from the sources) — a paper
with an unknown published date is always kept, otherwise the date must
lie within the inclusive bounds, each bound checked only when given. -/
def inDateRange (fromD toD : Option Int) (p : ArxivPaper) : Bool :=
  match p.published_date with
  | none => true
  | some d =>
    (match fromD with
     | none => true
     | some f => decide (f ≤ d)) &&
    (match toD with
     | none => true
     | some t => decide (d ≤ t))

/-- Modelled from the spec: `_filter_by_date`, the client-side date
filter applied after parsing. -/
def filterByDate (papers : List ArxivPaper) (fromD toD : Option Int) :
    List ArxivPaper :=
  papers.filter (inDateRange fromD toD)

/-- The claim's keep condition, stated in logic rather than through the
executable predicate: the published date is unknown, or it satisfies
every given inclusive bound. -/
def InRangeSpec (fromD toD : Option Int) (p : ArxivPaper) : Prop :=
  p.published_date = none ∨
    ∃ d, p.published_date = some d ∧
      (∀ f, fromD = some f → f ≤ d) ∧ (∀ t, toD = some t → d ≤ t)

theorem inDateRange_iff (fromD toD : Option Int) (p : ArxivPaper) :
    inDateRange fromD toD p = true ↔ InRangeSpec fromD toD p := by
  rw [inDateRange, InRangeSpec]
  cases hd : p.published_date with
  | none => simp
  | some d =>
    cases fromD <;> cases toD <;> simp

/-- C9: the client-side date filter keeps exactly the papers whose
published date lies within the given inclusive bounds together with
every paper whose published date is unknown, preserves relative order
(the output is a sublist of the input), and never excludes a paper with
an unknown published date. -/
theorem claim_C9_date_filter (papers : List ArxivPaper)
    (fromD toD : Option Int) :
    (∀ p, p ∈ filterByDate papers fromD toD ↔
      p ∈ papers ∧ InRangeSpec fromD toD p) ∧
    (filterByDate papers fromD toD).Sublist papers ∧
    (∀ p ∈ papers, p.published_date = none →
      p ∈ filterByDate papers fromD toD) := by
  refine ⟨fun p => ?_, List.filter_sublist papers, fun p hp hnone => ?_⟩
  · rw [filterByDate, List.mem_filter, inDateRange_iff]
  · rw [filterByDate, List.mem_filter]
    exact ⟨hp, by rw [inDateRange, hnone]⟩

/-- A parsed paper with no published date, as in the filtering tests. -/
def undatedPaper : ArxivPaper :=
  { title := "Paper 4", summary := "Abstract 4", authors := ["Author 4"],
    arxiv_id := "2312.00004", pdf_url := "url4" }

/-- Witness for C9: an undated paper survives a date filter with both
bounds given. -/
theorem claim_C9_date_filter_witness :
    undatedPaper ∈ filterByDate [undatedPaper] (some 0) (some 10) :=
  (claim_C9_date_filter [undatedPaper] (some 0) (some 10)).2.2 undatedPaper
    (by decide) rfl

end Alithia
